import Mathlib

/-!
Verification of the flash-uboot tool (src/flash-uboot.py) against its
natural-language specification.

The development shallowly embeds the Python program:

* byte buffers are List Nat (each element a byte value),
* Python text strings are List Char / String,
* Python exceptions are modelled with Option / Except / explicit outcome
  values, and a try/finally block is translated by sequencing the finally
  part on both the normal and the raising path,
* the main program (the part of the module from the input-file stage to the
  final exit, lines 234-283 of flash-uboot.py) is a pure function from the
  parsed arguments and a flash backend to a trace of side-effect events and
  an exit outcome.  Argument parsing, the get-version modes and backend
  construction precede this region and perform no flash mutation; the
  missing-candidate precondition check of lines 200-203 is included because
  it decides the exit status of degenerate invocations.
* the md5 digest is kept as an explicit function parameter everywhere: no
  claim depends on the internals of the hash, only on equality of digest
  strings, so every theorem below holds for an arbitrary digest function.
-/

/-! ## Python primitives on byte lists and character lists -/

/-- Byte values of a text string, as produced by str.encode for ASCII data. -/
def strToBytes (s : String) : List Nat :=
  s.data.map (fun c => c.toNat)

/-- Python slice buf[s:e] on a byte list. -/
def sliceBytes (buf : List Nat) (s e : Nat) : List Nat :=
  (buf.drop s).take (e - s)

/-- Python str.strip(c): remove the character c from both ends. -/
def pyStrip (c : Char) (l : List Char) : List Char :=
  ((l.dropWhile (· == c)).reverse.dropWhile (· == c)).reverse

/-- Removal of the character c from the right end only. -/
def trimTrailing (c : Char) (l : List Char) : List Char :=
  (l.reverse.dropWhile (· == c)).reverse

/-- Whether pat occurs in buf at position i (Python buf[i:i+len(pat)] == pat). -/
def matchAt (buf pat : List Nat) (i : Nat) : Bool :=
  decide ((buf.drop i).take pat.length = pat)

/-- Python bytes.index(pat, i0): the least occurrence position of pat at or
after i0, or none where Python raises ValueError. -/
def bytesIndex (buf pat : List Nat) (i0 : Nat) : Option Nat :=
  (List.range (buf.length + 1)).find? (fun i => decide (i0 ≤ i) && matchAt buf pat i)

/-- Continuation byte test for strict UTF-8 decoding. -/
def contByte (b : Nat) : Bool :=
  decide (0x80 ≤ b ∧ b ≤ 0xBF)

/-- Allowed second byte of a three-byte UTF-8 sequence (excludes overlong
encodings and surrogates, as CPython's strict decoder does). -/
def threeOk (b c1 : Nat) : Bool :=
  if b = 0xE0 then decide (0xA0 ≤ c1 ∧ c1 ≤ 0xBF)
  else if b = 0xED then decide (0x80 ≤ c1 ∧ c1 ≤ 0x9F)
  else contByte c1

/-- Allowed second byte of a four-byte UTF-8 sequence (excludes overlong
encodings and code points above 0x10FFFF). -/
def fourOk (b c1 : Nat) : Bool :=
  if b = 0xF0 then decide (0x90 ≤ c1 ∧ c1 ≤ 0xBF)
  else if b = 0xF4 then decide (0x80 ≤ c1 ∧ c1 ≤ 0x8F)
  else contByte c1

/-- Strict UTF-8 decoding of a byte list, as performed by Python
bytes.decode(); none models a raised UnicodeDecodeError. -/
def utf8Decode? : List Nat → Option (List Char)
  | [] => some []
  | b :: rest =>
    if b ≤ 0x7F then
      (utf8Decode? rest).map (fun cs => Char.ofNat b :: cs)
    else if b < 0xC2 then none
    else if b ≤ 0xDF then
      match rest with
      | [] => none
      | c1 :: r1 =>
        if contByte c1 then
          (utf8Decode? r1).map (fun cs => Char.ofNat ((b - 0xC0) * 64 + (c1 - 0x80)) :: cs)
        else none
    else if b ≤ 0xEF then
      match rest with
      | [] => none
      | c1 :: r1 =>
        match r1 with
        | [] => none
        | c2 :: r2 =>
          if threeOk b c1 && contByte c2 then
            (utf8Decode? r2).map
              (fun cs => Char.ofNat ((b - 0xE0) * 4096 + (c1 - 0x80) * 64 + (c2 - 0x80)) :: cs)
          else none
    else if b ≤ 0xF4 then
      match rest with
      | [] => none
      | c1 :: r1 =>
        match r1 with
        | [] => none
        | c2 :: r2 =>
          match r2 with
          | [] => none
          | c3 :: r3 =>
            if fourOk b c1 && contByte c2 && contByte c3 then
              (utf8Decode? r3).map
                (fun cs => Char.ofNat ((b - 0xF0) * 262144 + (c1 - 0x80) * 4096
                  + (c2 - 0x80) * 64 + (c3 - 0x80)) :: cs)
            else none
    else none

/-! ## parse_version (flash-uboot.py lines 130-147)

The Python loop keeps two indices: start (last marker occurrence) and end
(NUL position).  Every iteration searches for the marker from end + 1, then
for a NUL from start + 1.  A candidate whose length is out of bounds, or
whose bytes fail text decoding, makes the scan resume at end + 1; an index
search that fails raises ValueError, which the outer except turns into the
sentinel.  On a decoding failure the Python code first re-runs the marker
search itself (the inner except) and then again at the loop head with the
same arguments, which is the same as resuming the loop at end + 1, with the
failing search caught by the outer except either way.

The loop is embedded with explicit fuel; pvLoop returning none means the
fuel ran out, and the termination theorem for claim C9 shows that
buf.length + 1 units of fuel always suffice. -/

/-- The marker b"U-Boot" (version_token in parse_version). -/
def uBootToken : List Nat := strToBytes "U-Boot"

/-- One NUL byte, the candidate-span terminator. -/
def nulByte : List Nat := [0]

/-- The scanning loop of parse_version: i0 is the position from which the
next marker occurrence is searched (end + 1 in the Python code). -/
def pvLoop (buf : List Nat) : Nat → Nat → Option String
  | 0, _ => none
  | fuel + 1, i0 =>
    match bytesIndex buf uBootToken i0 with
    | none => some "UNAVAILABLE"
    | some s =>
      match bytesIndex buf nulByte (s + 1) with
      | none => some "UNAVAILABLE"
      | some e =>
        if e - s ≤ 1024 ∧ 15 < e - s then
          match utf8Decode? (sliceBytes buf s e) with
          | some cs => some (String.mk (pyStrip '\n' cs))
          | none => pvLoop buf fuel (e + 1)
        else pvLoop buf fuel (e + 1)

/-- parse_version(buf) of flash-uboot.py. -/
def parse_version (buf : List Nat) : String :=
  (pvLoop buf (buf.length + 1) 0).getD "UNAVAILABLE"

example : parse_version (strToBytes "U-Boot 2021.04 (something)\x00") =
    "U-Boot 2021.04 (something)" := by decide

example : parse_version [] = "UNAVAILABLE" := by decide

example : parse_version (strToBytes "U-Boot with no nul byte anywhere") = "UNAVAILABLE" := by
  decide

example : parse_version (strToBytes "xyzU-Boot short\x00") = "UNAVAILABLE" := by decide

/-! ## Declarative description of the scan, from the specification wording

The claims describe parse_version as a left-to-right scan over marker
occurrences: each occurrence is paired with the next NUL byte to form a
candidate span, a rejected candidate (out-of-bounds length or undecodable
bytes) makes the scan resume just past it, and the first accepted candidate
is decoded and trimmed of trailing newlines.  extract_version_spec is
written from that wording and compared against the source embedding. -/

/-- The candidate spans visited by the scan, in visiting order. -/
def scanLoop (buf : List Nat) : Nat → Nat → List (Nat × Nat)
  | 0, _ => []
  | fuel + 1, i0 =>
    match bytesIndex buf uBootToken i0 with
    | none => []
    | some s =>
      match bytesIndex buf nulByte (s + 1) with
      | none => []
      | some e => (s, e) :: scanLoop buf fuel (e + 1)

/-- Acceptance of a candidate span: length strictly above 15, at most 1024,
and bytes that decode as text. -/
def acceptB (buf : List Nat) (p : Nat × Nat) : Bool :=
  decide (p.2 - p.1 ≤ 1024) && decide (15 < p.2 - p.1)
    && (utf8Decode? (sliceBytes buf p.1 p.2)).isSome

/-- Decoded, trailing-newline-trimmed text of a candidate span. -/
def renderSpan (buf : List Nat) (p : Nat × Nat) : String :=
  String.mk (trimTrailing '\n' ((utf8Decode? (sliceBytes buf p.1 p.2)).getD []))

/-- Version extraction as the claims describe it: the first acceptable
candidate span of the scan, decoded and trimmed, with the sentinel when no
candidate is acceptable. -/
def extract_version_spec (buf : List Nat) : String :=
  match (scanLoop buf (buf.length + 1) 0).find? (acceptB buf) with
  | some p => renderSpan buf p
  | none => "UNAVAILABLE"

/-- No marker occurrence anywhere in the buffer, paired with its following
NUL, forms an acceptable candidate span. -/
def noAcceptableB (buf : List Nat) : Bool :=
  (List.range (buf.length + 1)).all (fun s =>
    !(matchAt buf uBootToken s) ||
      (match bytesIndex buf nulByte (s + 1) with
       | none => true
       | some e => !(acceptB buf (s, e))))

/-! ## Lemmas about the scan -/

theorem bytesIndex_some {buf pat : List Nat} {i0 i : Nat}
    (h : bytesIndex buf pat i0 = some i) : i0 ≤ i ∧ matchAt buf pat i = true := by
  have hp := List.find?_some h
  simpa [Bool.and_eq_true, decide_eq_true_eq] using hp

theorem matchAt_bound {buf pat : List Nat} {i : Nat} (hne : pat ≠ [])
    (h : matchAt buf pat i = true) : i + pat.length ≤ buf.length := by
  simp only [matchAt, decide_eq_true_eq] at h
  have hlen := congrArg List.length h
  simp only [List.length_take, List.length_drop] at hlen
  have hp : 1 ≤ pat.length := by
    cases pat with
    | nil => exact absurd rfl hne
    | cons a l => simp
  omega

theorem uBootToken_length : uBootToken.length = 6 := by decide

theorem nulByte_length : nulByte.length = 1 := by decide

theorem pvLoop_eq_none {buf : List Nat} (n i0 : Nat)
    (hs : bytesIndex buf uBootToken i0 = none) :
    pvLoop buf (n + 1) i0 = some "UNAVAILABLE" := by
  simp only [pvLoop, hs]

theorem pvLoop_eq_nonul {buf : List Nat} (n i0 : Nat) {s : Nat}
    (hs : bytesIndex buf uBootToken i0 = some s)
    (he : bytesIndex buf nulByte (s + 1) = none) :
    pvLoop buf (n + 1) i0 = some "UNAVAILABLE" := by
  simp only [pvLoop, hs, he]

theorem pvLoop_eq_step {buf : List Nat} (n i0 : Nat) {s e : Nat}
    (hs : bytesIndex buf uBootToken i0 = some s)
    (he : bytesIndex buf nulByte (s + 1) = some e) :
    pvLoop buf (n + 1) i0 =
      if e - s ≤ 1024 ∧ 15 < e - s then
        match utf8Decode? (sliceBytes buf s e) with
        | some cs => some (String.mk (pyStrip '\n' cs))
        | none => pvLoop buf n (e + 1)
      else pvLoop buf n (e + 1) := by
  simp only [pvLoop, hs, he]

theorem scanLoop_eq_none {buf : List Nat} (n i0 : Nat)
    (hs : bytesIndex buf uBootToken i0 = none) :
    scanLoop buf (n + 1) i0 = [] := by
  simp only [scanLoop, hs]

theorem scanLoop_eq_nonul {buf : List Nat} (n i0 : Nat) {s : Nat}
    (hs : bytesIndex buf uBootToken i0 = some s)
    (he : bytesIndex buf nulByte (s + 1) = none) :
    scanLoop buf (n + 1) i0 = [] := by
  simp only [scanLoop, hs, he]

theorem scanLoop_eq_step {buf : List Nat} (n i0 : Nat) {s e : Nat}
    (hs : bytesIndex buf uBootToken i0 = some s)
    (he : bytesIndex buf nulByte (s + 1) = some e) :
    scanLoop buf (n + 1) i0 = (s, e) :: scanLoop buf n (e + 1) := by
  simp only [scanLoop, hs, he]

theorem pvLoop_mono (buf : List Nat) :
    ∀ fuel fuel2 i0 r, fuel ≤ fuel2 → pvLoop buf fuel i0 = some r →
      pvLoop buf fuel2 i0 = some r := by
  intro fuel
  induction fuel with
  | zero => intro fuel2 i0 r _ h; simp [pvLoop] at h
  | succ n ih =>
    intro fuel2 i0 r hle h
    obtain ⟨m, rfl⟩ : ∃ m, fuel2 = m + 1 := ⟨fuel2 - 1, by omega⟩
    cases hs : bytesIndex buf uBootToken i0 with
    | none =>
      rw [pvLoop_eq_none n i0 hs] at h
      rw [pvLoop_eq_none m i0 hs]
      exact h
    | some s =>
      cases he : bytesIndex buf nulByte (s + 1) with
      | none =>
        rw [pvLoop_eq_nonul n i0 hs he] at h
        rw [pvLoop_eq_nonul m i0 hs he]
        exact h
      | some e =>
        rw [pvLoop_eq_step n i0 hs he] at h
        rw [pvLoop_eq_step m i0 hs he]
        by_cases hc : e - s ≤ 1024 ∧ 15 < e - s
        · rw [if_pos hc] at h ⊢
          cases hd : utf8Decode? (sliceBytes buf s e) with
          | some cs => rw [hd] at h; exact h
          | none =>
            rw [hd] at h
            exact ih m (e + 1) r (by omega) h
        · rw [if_neg hc] at h ⊢
          exact ih m (e + 1) r (by omega) h

theorem pvLoop_isSome (buf : List Nat) :
    ∀ fuel i0, i0 ≤ buf.length → buf.length + 1 ≤ fuel + i0 →
      (pvLoop buf fuel i0).isSome = true := by
  intro fuel
  induction fuel with
  | zero => intro i0 h1 h2; omega
  | succ n ih =>
    intro i0 h1 h2
    cases hs : bytesIndex buf uBootToken i0 with
    | none => rw [pvLoop_eq_none n i0 hs]; rfl
    | some s =>
      cases he : bytesIndex buf nulByte (s + 1) with
      | none => rw [pvLoop_eq_nonul n i0 hs he]; rfl
      | some e =>
        have hs1 := bytesIndex_some hs
        have he1 := bytesIndex_some he
        have hsb := matchAt_bound (by decide) hs1.2
        have heb := matchAt_bound (by decide) he1.2
        rw [uBootToken_length] at hsb
        rw [nulByte_length] at heb
        rw [pvLoop_eq_step n i0 hs he]
        by_cases hc : e - s ≤ 1024 ∧ 15 < e - s
        · rw [if_pos hc]
          cases hd : utf8Decode? (sliceBytes buf s e) with
          | some cs => rfl
          | none => exact ih (e + 1) (by omega) (by omega)
        · rw [if_neg hc]
          exact ih (e + 1) (by omega) (by omega)

theorem matchAt_token_head {buf : List Nat} {s : Nat}
    (h : matchAt buf uBootToken s = true) : ∃ t, buf.drop s = 0x55 :: t := by
  simp only [matchAt, decide_eq_true_eq] at h
  rw [uBootToken_length] at h
  have htok : uBootToken = [0x55, 0x2D, 0x42, 0x6F, 0x6F, 0x74] := by decide
  rw [htok] at h
  cases hd : buf.drop s with
  | nil => rw [hd] at h; simp only [List.take_nil] at h; exact absurd h (by decide)
  | cons a t =>
    rw [hd] at h
    simp only [List.take_succ_cons, List.cons.injEq] at h
    exact ⟨t, by rw [h.1]⟩

theorem slice_head_token {buf : List Nat} {s e : Nat}
    (hm : matchAt buf uBootToken s = true) (hlen : 15 < e - s) :
    ∃ t, sliceBytes buf s e = 0x55 :: t := by
  obtain ⟨t, ht⟩ := matchAt_token_head hm
  obtain ⟨k, hk⟩ : ∃ k, e - s = k + 1 := ⟨e - s - 1, by omega⟩
  refine ⟨t.take k, ?_⟩
  rw [sliceBytes, ht, hk, List.take_succ_cons]

theorem utf8_cons_85 {t : List Nat} :
    utf8Decode? (0x55 :: t) = (utf8Decode? t).map (fun cs => Char.ofNat 0x55 :: cs) := by
  rw [utf8Decode?.eq_def]
  rfl

theorem pyStrip_eq_trimTrailing {c a : Char} {l : List Char} (h : (a == c) = false) :
    pyStrip c (a :: l) = trimTrailing c (a :: l) := by
  unfold pyStrip trimTrailing
  rw [List.dropWhile_cons, h]
  simp

theorem acceptB_false_of_not_bounds (buf : List Nat) {s e : Nat}
    (hc : ¬(e - s ≤ 1024 ∧ 15 < e - s)) : acceptB buf (s, e) = false := by
  by_cases h1 : e - s ≤ 1024
  · by_cases h2 : 15 < e - s
    · exact absurd ⟨h1, h2⟩ hc
    · simp [acceptB, h1, h2]
  · simp [acceptB, h1]

theorem pvLoop_eq_scan {buf : List Nat} :
    ∀ fuel i0 r, pvLoop buf fuel i0 = some r →
      r = (match (scanLoop buf fuel i0).find? (acceptB buf) with
           | some p => renderSpan buf p
           | none => "UNAVAILABLE") := by
  intro fuel
  induction fuel with
  | zero => intro i0 r h; simp [pvLoop] at h
  | succ n ih =>
    intro i0 r h
    cases hs : bytesIndex buf uBootToken i0 with
    | none =>
      rw [pvLoop_eq_none n i0 hs] at h
      rw [scanLoop_eq_none n i0 hs]
      simp only [List.find?_nil]
      exact (Option.some.injEq _ _ ▸ h).symm
    | some s =>
      cases he : bytesIndex buf nulByte (s + 1) with
      | none =>
        rw [pvLoop_eq_nonul n i0 hs he] at h
        rw [scanLoop_eq_nonul n i0 hs he]
        simp only [List.find?_nil]
        exact (Option.some.injEq _ _ ▸ h).symm
      | some e =>
        rw [pvLoop_eq_step n i0 hs he] at h
        rw [scanLoop_eq_step n i0 hs he]
        by_cases hc : e - s ≤ 1024 ∧ 15 < e - s
        · rw [if_pos hc] at h
          cases hd : utf8Decode? (sliceBytes buf s e) with
          | some cs =>
            rw [hd] at h
            have h2 : some (String.mk (pyStrip '\n' cs)) = some r := h
            have hacc : acceptB buf (s, e) = true := by
              simp [acceptB, hc.1, hc.2, hd]
            rw [List.find?_cons_of_pos _ hacc]
            obtain ⟨t, hslice⟩ := slice_head_token (bytesIndex_some hs).2 hc.2
            have hdec : utf8Decode? (sliceBytes buf s e) =
                (utf8Decode? t).map (fun cs => Char.ofNat 0x55 :: cs) := by
              rw [hslice]; exact utf8_cons_85
            rw [hdec] at hd
            cases ht : utf8Decode? t with
            | none => rw [ht] at hd; simp at hd
            | some cs0 =>
              rw [ht] at hd
              simp only [Option.map_some'] at hd
              have hcseq : cs = Char.ofNat 0x55 :: cs0 := by
                injection hd with hd2; exact hd2.symm
              have hr : r = String.mk (pyStrip '\n' cs) := by
                injection h2 with h3; exact h3.symm
              subst hcseq
              rw [hr]
              simp only [renderSpan, hdec, ht, Option.map_some', Option.getD_some]
              rw [pyStrip_eq_trimTrailing (show ((Char.ofNat 0x55) == '\n') = false by decide)]
          | none =>
            rw [hd] at h
            have h2 : pvLoop buf n (e + 1) = some r := h
            have hacc : acceptB buf (s, e) = false := by simp [acceptB, hd]
            rw [List.find?_cons_of_neg _ (by simp [hacc])]
            exact ih (e + 1) r h2
        · rw [if_neg hc] at h
          have hacc := acceptB_false_of_not_bounds buf hc
          rw [List.find?_cons_of_neg _ (by simp [hacc])]
          exact ih (e + 1) r h

theorem noAcceptable_spec {buf : List Nat} (h : noAcceptableB buf = true) :
    ∀ s e, matchAt buf uBootToken s = true → bytesIndex buf nulByte (s + 1) = some e →
      acceptB buf (s, e) = false := by
  intro s e hm he
  have hb := matchAt_bound (by decide) hm
  rw [uBootToken_length] at hb
  have hrange : s ∈ List.range (buf.length + 1) := List.mem_range.mpr (by omega)
  have hall := List.all_eq_true.mp h s hrange
  rw [hm, he] at hall
  simpa using hall

theorem pvLoop_unavailable {buf : List Nat} (hn : noAcceptableB buf = true) :
    ∀ fuel i0 r, pvLoop buf fuel i0 = some r → r = "UNAVAILABLE" := by
  intro fuel
  induction fuel with
  | zero => intro i0 r h; simp [pvLoop] at h
  | succ n ih =>
    intro i0 r h
    cases hs : bytesIndex buf uBootToken i0 with
    | none =>
      rw [pvLoop_eq_none n i0 hs] at h
      exact (Option.some.injEq _ _ ▸ h).symm
    | some s =>
      cases he : bytesIndex buf nulByte (s + 1) with
      | none =>
        rw [pvLoop_eq_nonul n i0 hs he] at h
        exact (Option.some.injEq _ _ ▸ h).symm
      | some e =>
        rw [pvLoop_eq_step n i0 hs he] at h
        have hacc := noAcceptable_spec hn s e (bytesIndex_some hs).2 he
        by_cases hc : e - s ≤ 1024 ∧ 15 < e - s
        · rw [if_pos hc] at h
          cases hd : utf8Decode? (sliceBytes buf s e) with
          | some cs =>
            exfalso
            rw [acceptB] at hacc
            simp [hc.1, hc.2, hd] at hacc
          | none =>
            rw [hd] at h
            exact ih (e + 1) r h
        · rw [if_neg hc] at h
          exact ih (e + 1) r h

/-- C4: parse_version never propagates an exception (the outer except of the
source turns every raised error into the sentinel, which the total embedding
realises by construction: pvLoop yields some value for adequate fuel and
parse_version defaults to the sentinel otherwise), and it returns
"UNAVAILABLE" whenever no acceptable candidate span exists; in particular for
the empty buffer, for a buffer with no marker occurrence, and for a buffer
in which no marker occurrence is followed by a NUL byte.  Buffers whose only
candidate spans are too short, too long, or fail text decoding are exactly
the buffers with noAcceptableB = true and no marker-free remainder, covered
by the first part. -/
theorem parse_version_unavailable :
    (∀ buf, noAcceptableB buf = true → parse_version buf = "UNAVAILABLE")
    ∧ parse_version [] = "UNAVAILABLE"
    ∧ (∀ buf, bytesIndex buf uBootToken 0 = none → parse_version buf = "UNAVAILABLE")
    ∧ (∀ buf, (∀ s, matchAt buf uBootToken s = true →
        bytesIndex buf nulByte (s + 1) = none) → parse_version buf = "UNAVAILABLE") := by
  refine ⟨?_, by decide, ?_, ?_⟩
  · intro buf hn
    rw [parse_version]
    cases h : pvLoop buf (buf.length + 1) 0 with
    | none => rfl
    | some r =>
      have := pvLoop_unavailable hn _ _ _ h
      rw [this]
      rfl
  · intro buf h
    rw [parse_version, pvLoop_eq_none buf.length 0 h]
    rfl
  · intro buf h
    have hn : noAcceptableB buf = true := by
      rw [noAcceptableB]
      refine List.all_eq_true.mpr ?_
      intro s _
      cases hm : matchAt buf uBootToken s with
      | false => rfl
      | true => rw [h s hm]; rfl
    rw [parse_version]
    cases hp : pvLoop buf (buf.length + 1) 0 with
    | none => rfl
    | some r =>
      have := pvLoop_unavailable hn _ _ _ hp
      rw [this]
      rfl

/-- Witness for C4 at a concrete buffer whose only candidate span has
length 10, below the minimum bound. -/
theorem parse_version_unavailable_witness :
    noAcceptableB (strToBytes "xU-Boot 123\x00") = true ∧
      parse_version (strToBytes "xU-Boot 123\x00") = "UNAVAILABLE" :=
  ⟨by decide, parse_version_unavailable.1 _ (by decide)⟩

/-- C5: parse_version scans left to right over marker occurrences, pairs
each with the next NUL byte, resumes just past a rejected candidate, and
returns the decoded, trailing-newline-trimmed text of the first candidate
span of length in (15, 1024]; extract_version_spec is that description
written out declaratively, and the two agree on every buffer.  The second
part checks the concrete example from the specification. -/
theorem parse_version_matches_scan_spec :
    (∀ buf, parse_version buf = extract_version_spec buf)
    ∧ parse_version (strToBytes "U-Boot 2021.04 (something)\x00") =
        "U-Boot 2021.04 (something)" := by
  constructor
  · intro buf
    have hsome := pvLoop_isSome buf (buf.length + 1) 0 (Nat.zero_le _) (by omega)
    cases h : pvLoop buf (buf.length + 1) 0 with
    | none => rw [h] at hsome; simp at hsome
    | some r =>
      have hr := pvLoop_eq_scan _ _ _ h
      rw [parse_version, h, extract_version_spec]
      exact hr
  · decide

/-- C9: the scan of parse_version terminates for every finite buffer: any
fuel of at least buf.length + 1 steps yields a result (never the fuel-out
marker none), and always the same one, because every iteration strictly
advances the scan position past the NUL of the previous candidate. -/
theorem pvLoop_fuel_sufficient :
    ∀ (buf : List Nat) (fuel : Nat), buf.length + 1 ≤ fuel →
      pvLoop buf fuel 0 = some (parse_version buf) := by
  intro buf fuel hf
  have hsome := pvLoop_isSome buf (buf.length + 1) 0 (Nat.zero_le _) (by omega)
  cases h : pvLoop buf (buf.length + 1) 0 with
  | none => rw [h] at hsome; simp at hsome
  | some r =>
    have hm := pvLoop_mono buf (buf.length + 1) fuel 0 r hf h
    rw [parse_version, h, hm]
    rfl

/-- Witness for C9 at a concrete buffer that contains a marker with no
following NUL byte: the scan stops at end of buffer. -/
theorem pvLoop_fuel_sufficient_witness :
    (strToBytes "trailing U-Boot no nul").length + 1 ≤ 30 ∧
      pvLoop (strToBytes "trailing U-Boot no nul") 30 0 =
        some (parse_version (strToBytes "trailing U-Boot no nul")) :=
  ⟨by decide, pvLoop_fuel_sufficient _ 30 (by decide)⟩

/-! ## The update engine (flash-uboot.py lines 195-283)

The main program is modelled as a pure function from the parsed arguments
and a flash backend to a trace of side-effect events and an exit outcome.
A backend is a record of the operations the engine calls through duck
typing: section existence, section size, the device bytes a read returns,
and the erase and write operations, each given as the trace of events its
call emits together with a flag saying whether the call raises a
MediumError.  The mmc and mtd classes of the source instantiate it. -/

/-- Side-effect events of one invocation. -/
inductive Ev where
  | read (s : String) (n : Nat)
  | pr (msg : String)
  | erase (s : String)
  | writeDev (s : String) (buf : List Nat)
  | gpio (value : Bool)
  | forceRo (v : String)
deriving DecidableEq

/-- Raised Python exceptions that escape the modelled region. -/
inductive ErrKind where
  | nameError
  | mediumError
deriving DecidableEq

/-- How the modelled region ends: a sys.exit with a code, or an uncaught
exception (which makes the interpreter exit with status 1). -/
inductive Outcome where
  | exited (code : Nat)
  | raised (e : ErrKind)
deriving DecidableEq

/-- Process exit status of an outcome: an uncaught exception exits 1. -/
def exitStatus : Outcome → Nat
  | .exited n => n
  | .raised _ => 1

/-- create_file_data's record: size, full content buffer and digest. -/
structure FileData where
  size : Nat
  buf : List Nat
  md5 : String
deriving DecidableEq

/-- create_file_data(file) for a file whose bytes are content, under digest
function md5f: st_size is the byte count, buf the whole content. -/
def create_file_data (md5f : List Nat → String) (content : List Nat) : FileData :=
  { size := content.length, buf := content, md5 := md5f content }

/-- The parsed arguments the modelled region depends on.  spl and uboot hold
the bytes of the named file when the option is present (the earlier
file-existence check has passed), gpio the value of the gpio option. -/
structure Args where
  write : Bool
  verify : Bool
  spl : Option (List Nat)
  uboot : Option (List Nat)
  gpio : Option Int
deriving DecidableEq

/-- Truthiness of args.gpio in Python: present and nonzero. -/
def gpioOn (args : Args) : Bool :=
  match args.gpio with
  | none => false
  | some g => !(g == 0)

/-- A flash backend as the engine sees it. -/
structure Backend where
  hasSection : String → Bool
  sizeOf : String → Nat
  contents : String → List Nat
  eraseT : String → List Ev × Bool
  writeT : String → List Nat → List Ev × Bool

/-- The input files of lines 234-238: an ordered association list in the
insertion order of the Python dict; a uboot candidate also inserts a
uboot-second candidate read from the same file. -/
def inputData (md5f : List Nat → String) (args : Args) : List (String × FileData) :=
  (match args.spl with
   | some c => [("spl", create_file_data md5f c)]
   | none => []) ++
  (match args.uboot with
   | some c => [("uboot", create_file_data md5f c),
                ("uboot-second", create_file_data md5f c)]
   | none => [])

/-- One processed section of the verify loop. -/
structure SectEntry where
  name : String
  fd : FileData
  need : Bool
deriving DecidableEq

/-- Result of the verify loop of lines 241-257: either the loop left the
program early (sys.exit or an uncaught exception), or it finished with the
need-to-flash flag of each processed section. -/
inductive VRes where
  | fatal (tr : List Ev) (out : Outcome)
  | done (tr : List Ev) (entries : List SectEntry)

/-- The status line printed for a section by lines 254 and 257. -/
def verifyMsg (s : String) (fd : FileData) (fm : String) (need : Bool) : String :=
  if need then
    "flash: " ++ s ++ ": NEED TO FLASH: " ++ toString fd.size ++ "b: file (" ++ fd.md5
      ++ ") != flash (" ++ fm ++ ")"
  else
    "flash: " ++ s ++ ": ok: " ++ toString fd.size ++ "b: file (" ++ fd.md5
      ++ ") == flash (" ++ fm ++ ")"

/-- The oversize message of line 248. -/
def oversizeMsg (s : String) (fd : FileData) (n : Nat) : String :=
  "flash: " ++ s ++ " file (" ++ toString fd.size ++ "b) larger than flash section ("
    ++ toString n ++ "b)"

/-- The verify loop of lines 241-257, over the sections present in data in
the fixed order spl, uboot, uboot-second.  A section not detected in the
flash makes line 244 evaluate an f-string that references the undefined
name flash, so the program dies with an uncaught NameError; a candidate
larger than the section exits 1; otherwise the section is read, digested
and compared. -/
def verifyLoop (md5f : List Nat → String) (be : Backend) :
    List (String × FileData) → VRes
  | [] => .done [] []
  | (s, fd) :: rest =>
    if be.hasSection s = false then .fatal [] (.raised .nameError)
    else if be.sizeOf s < fd.size then
      .fatal [.pr (oversizeMsg s fd (be.sizeOf s))] (.exited 1)
    else
      let fm := md5f ((be.contents s).take fd.size)
      let need := !(fd.md5 == fm)
      let evs := [Ev.read s fd.size, Ev.pr (verifyMsg s fd fm need)]
      match verifyLoop md5f be rest with
      | .fatal tr out => .fatal (evs ++ tr) out
      | .done tr es => .done (evs ++ tr) ({ name := s, fd := fd, need := need } :: es)

/-- The gpio-guarded erase plus write of one section, lines 272-281: enable
writing when the gpio guard is configured, erase then write (the write is
skipped when the erase raises), and disable writing again on both the
normal and the raising path, which is the try/finally of the source. -/
def flashOne (be : Backend) (g : Bool) (s : String) (buf : List Nat) : List Ev × Bool :=
  let pre := if g then [Ev.gpio false] else []
  let er := be.eraseT s
  let body := if er.2 then er else (er.1 ++ (be.writeT s buf).1, (be.writeT s buf).2)
  let post := if g then [Ev.gpio true] else []
  (pre ++ body.1 ++ post, body.2)

/-- The write loop of lines 267-281: sections needing flash are erased and
written in order; a raised MediumError propagates out of the for loop, so
the remaining iterations do not run. -/
def writeLoop (be : Backend) (g : Bool) : List SectEntry → List Ev × Bool
  | [] => ([], false)
  | en :: rest =>
    if en.need then
      let r := flashOne be g en.name en.fd.buf
      let tr := Ev.pr ("flash: " ++ en.name ++ ": FLASHING") :: r.1
      if r.2 then (tr, true)
      else
        let rr := writeLoop be g rest
        (tr ++ rr.1, rr.2)
    else writeLoop be g rest

/-- The modelled region of the main program: the missing-candidate check of
lines 200-203, the input files of lines 234-238, the verify loop, the
verify-only exit of lines 258-264, the write phase of lines 267-281 and the
final sys.exit(0) of line 283. -/
def mainRun (md5f : List Nat → String) (be : Backend) (args : Args) :
    List Ev × Outcome :=
  if args.spl = none ∧ args.uboot = none then ([], .exited 1)
  else
    match verifyLoop md5f be (inputData md5f args) with
    | .fatal tr out => (tr, out)
    | .done tr es =>
      if args.verify then
        (tr, .exited (if es.any (·.need) then 1 else 0))
      else if args.write then
        let w := writeLoop be (gpioOn args) es
        (tr ++ w.1, if w.2 then .raised .mediumError else .exited 0)
      else (tr, .exited 0)

/-- The mmc backend of lines 37-78: sections spl and uboot at the
configured offsets on one device of devSize bytes; erase_section is a pass
statement; write toggles the force_ro control around the device write and
restores it in a finally block.  The device bytes visible at a section's
offset and the write outcomes are parameters of the model. -/
def mmcBackend (devSize : Nat) (splOff ubootOff : Int)
    (cont : String → List Nat) (wFails : String → Bool) : Backend :=
  { hasSection := fun s => s == "spl" || s == "uboot"
    sizeOf := fun s => ((devSize : Int) - (if s == "spl" then splOff else ubootOff)).natAbs
    contents := cont
    eraseT := fun _ => ([], false)
    writeT := fun s buf =>
      ([Ev.forceRo "0", Ev.writeDev s buf, Ev.forceRo "1"], wFails s) }

/-! ## Event classifiers and trace predicates -/

def isRead : Ev → Bool
  | .read _ _ => true
  | _ => false

def isPr : Ev → Bool
  | .pr _ => true
  | _ => false

def isErase : Ev → Bool
  | .erase _ => true
  | _ => false

def isWriteDev : Ev → Bool
  | .writeDev _ _ => true
  | _ => false

def isReadOf (s : String) : Ev → Bool
  | .read s2 _ => s2 == s
  | _ => false

/-- Events that name a section as the target of a mutation. -/
def mentionsSection (s : String) : Ev → Bool
  | .erase s2 => s2 == s
  | .writeDev s2 _ => s2 == s
  | _ => false

/-- Events a backend erase or write may emit: mutations and the force_ro
toggle, but no reads, prints or gpio toggles. -/
def benign : Ev → Bool
  | .erase _ => true
  | .writeDev _ _ => true
  | .forceRo _ => true
  | _ => false

/-- A backend whose erase and write traces contain only benign events.
Both concrete backends of the source satisfy this. -/
def Backend.quiet (be : Backend) : Prop :=
  ∀ s buf, (be.eraseT s).1.all benign = true ∧ (be.writeT s buf).1.all benign = true

/-- A backend whose erase and write traces only mention the section being
erased or written.  Both concrete backends of the source satisfy this. -/
def Backend.scoped (be : Backend) : Prop :=
  ∀ s buf s2, s2 ≠ s →
    (be.eraseT s).1.all (fun e => !(mentionsSection s2 e)) = true ∧
    (be.writeT s buf).1.all (fun e => !(mentionsSection s2 e)) = true

/-- No read event occurs anywhere in the trace. -/
def noReadsB : List Ev → Bool
  | [] => true
  | e :: r => !(isRead e) && noReadsB r

/-- After every device write in the trace, no read event follows. -/
def noReadAfterWrite : List Ev → Bool
  | [] => true
  | e :: r => if isWriteDev e then noReadsB r else noReadAfterWrite r

/-- Whether some read of section s occurs in the trace. -/
def hasLaterRead (s : String) : List Ev → Bool
  | [] => false
  | e :: r => isReadOf s e || hasLaterRead s r

/-- The section a device-write event targets, if any. -/
def writtenName : Ev → Option String
  | .writeDev s2 _ => some s2
  | _ => none

/-- Every device write in the trace is followed by a later read of the
written section: the re-verification shape claim C1 requires. -/
def reverifiedB : List Ev → Bool
  | [] => true
  | e :: r =>
    (match writtenName e with
     | some s => hasLaterRead s r
     | none => true) && reverifiedB r

/-- The trace of a verify-loop result. -/
def VRes.trace : VRes → List Ev
  | .fatal tr _ => tr
  | .done tr _ => tr

theorem verifyLoop_trace_readOrPr (md5f : List Nat → String) (be : Backend) :
    ∀ l, ((verifyLoop md5f be l).trace).all (fun e => isRead e || isPr e) = true := by
  intro l
  induction l with
  | nil => rfl
  | cons p rest ih =>
    obtain ⟨s, fd⟩ := p
    rw [verifyLoop]
    split
    · rfl
    · split
      · rfl
      · cases hrec : verifyLoop md5f be rest with
        | fatal tr out =>
          rw [hrec] at ih
          simp only [hrec, VRes.trace] at ih ⊢
          simp only [List.all_append, ih, Bool.and_true]
          rfl
        | done tr es =>
          rw [hrec] at ih
          simp only [hrec, VRes.trace] at ih ⊢
          simp only [List.all_append, ih, Bool.and_true]
          rfl

theorem inputData_names_nodup (md5f : List Nat → String) (args : Args) :
    ((inputData md5f args).map Prod.fst).Nodup := by
  rcases args with ⟨w, v, spl, uboot, g⟩
  cases spl <;> cases uboot <;> simp [inputData]

theorem verifyLoop_oversize_fatal (md5f : List Nat → String) (be : Backend) :
    ∀ l (s : String) (fd : FileData), (s, fd) ∈ l → ((l.map Prod.fst).Nodup) →
      be.sizeOf s < fd.size →
      ∃ tr out, verifyLoop md5f be l = .fatal tr out ∧ exitStatus out = 1 ∧
        tr.all (fun e => !(isReadOf s e)) = true := by
  intro l
  induction l with
  | nil => intro s fd hm; exact absurd hm (List.not_mem_nil _)
  | cons p rest ih =>
    obtain ⟨s2, fd2⟩ := p
    intro s fd hm hnd hover
    rcases List.mem_cons.mp hm with heq | hmem
    · injection heq with a b
      rw [← a, ← b]
      rw [verifyLoop]
      by_cases h1 : be.hasSection s = false
      · rw [if_pos h1]
        exact ⟨[], .raised .nameError, rfl, rfl, rfl⟩
      · rw [if_neg h1, if_pos hover]
        refine ⟨_, .exited 1, rfl, rfl, ?_⟩
        simp [isReadOf]
    · have hnd2 : (s2 :: rest.map Prod.fst).Nodup := by
        simpa using hnd
      have hcons := List.nodup_cons.mp hnd2
      have hs2 : s2 ≠ s := by
        intro hcontra
        subst hcontra
        exact hcons.1 (List.mem_map_of_mem Prod.fst hmem)
      rw [verifyLoop]
      by_cases h1 : be.hasSection s2 = false
      · rw [if_pos h1]
        exact ⟨[], .raised .nameError, rfl, rfl, rfl⟩
      · rw [if_neg h1]
        by_cases h2 : be.sizeOf s2 < fd2.size
        · rw [if_pos h2]
          refine ⟨_, .exited 1, rfl, rfl, ?_⟩
          simp [isReadOf]
        · rw [if_neg h2]
          obtain ⟨tr, out, hrec, hst, hall⟩ :=
            ih s fd hmem hcons.2 hover
          rw [hrec]
          refine ⟨_, out, rfl, hst, ?_⟩
          simp only [List.all_cons, List.all_append, hall]
          simp [isReadOf, hs2]

theorem verifyLoop_done_of_wf (md5f : List Nat → String) (be : Backend) :
    ∀ l, l.all (fun p => be.hasSection p.1 && decide (p.2.size ≤ be.sizeOf p.1)) = true →
      ∃ tr, verifyLoop md5f be l = .done tr
        (l.map (fun p =>
          ⟨p.1, p.2, !(p.2.md5 == md5f ((be.contents p.1).take p.2.size))⟩)) := by
  intro l
  induction l with
  | nil => exact fun _ => ⟨[], rfl⟩
  | cons p rest ih =>
    obtain ⟨s, fd⟩ := p
    intro hwf
    simp only [List.all_cons, Bool.and_eq_true, decide_eq_true_eq] at hwf
    obtain ⟨⟨hhas, hsize⟩, hrest⟩ := hwf
    obtain ⟨tr, hrec⟩ := ih hrest
    rw [verifyLoop, if_neg (by simp [hhas]), if_neg (by omega), hrec]
    exact ⟨_, rfl⟩

/-! ## Lemmas about the write phase -/

theorem all_mono {α : Type} {p q : α → Bool} (h : ∀ e, p e = true → q e = true) :
    ∀ l : List α, l.all p = true → l.all q = true := by
  intro l hl
  rw [List.all_eq_true] at hl ⊢
  exact fun e he => h e (hl e he)

theorem benign_not_read {e : Ev} (h : benign e = true) : isRead e = false := by
  cases e <;> simp [benign, isRead] at h ⊢

theorem benign_not_writeDev_or : ∀ e : Ev, benign e = true →
    isErase e = true ∨ isWriteDev e = true ∨ e = Ev.forceRo "0" ∨ ∃ v, e = Ev.forceRo v := by
  intro e h
  cases e <;> simp [benign, isErase, isWriteDev] at h ⊢

theorem flashOne_trace (be : Backend) (g : Bool) (s : String) (buf : List Nat) :
    (flashOne be g s buf).1 =
      (if g then [Ev.gpio false] else []) ++
        (if (be.eraseT s).2 then (be.eraseT s).1
         else (be.eraseT s).1 ++ (be.writeT s buf).1) ++
        (if g then [Ev.gpio true] else []) := by
  rw [flashOne]
  by_cases h : (be.eraseT s).2 <;> simp [h]

theorem flashOne_raises (be : Backend) (g : Bool) (s : String) (buf : List Nat) :
    (flashOne be g s buf).2 =
      ((be.eraseT s).2 || (be.writeT s buf).2) := by
  rw [flashOne]
  by_cases h : (be.eraseT s).2 <;> simp [h]

theorem flashOne_body_all (be : Backend) (hq : be.quiet) (s : String) (buf : List Nat) :
    ((if (be.eraseT s).2 then (be.eraseT s).1
      else (be.eraseT s).1 ++ (be.writeT s buf).1).all benign) = true := by
  obtain ⟨he, hw⟩ := hq s buf
  by_cases h : (be.eraseT s).2 <;> simp [h, List.all_append, he, hw]

theorem flashOne_trace_gpio (be : Backend) (s : String) (buf : List Nat) :
    (flashOne be true s buf).1 =
      Ev.gpio false ::
        ((if (be.eraseT s).2 then (be.eraseT s).1
          else (be.eraseT s).1 ++ (be.writeT s buf).1) ++ [Ev.gpio true]) := by
  rw [flashOne_trace]
  rfl

theorem flashOne_all_no_read (be : Backend) (hq : be.quiet) (g : Bool) (s : String)
    (buf : List Nat) : (flashOne be g s buf).1.all (fun e => !(isRead e)) = true := by
  rw [flashOne_trace]
  have hb := flashOne_body_all be hq s buf
  have hbody := all_mono (p := benign) (q := fun e => !(isRead e))
    (fun e h => by simp [benign_not_read h]) _ hb
  cases g
  · simpa [List.all_append] using hbody
  · simp only [List.all_append, Bool.and_eq_true]
    exact ⟨⟨by rfl, hbody⟩, by rfl⟩

theorem writeLoop_all_no_read (be : Backend) (hq : be.quiet) (g : Bool) :
    ∀ l, (writeLoop be g l).1.all (fun e => !(isRead e)) = true := by
  intro l
  induction l with
  | nil => rfl
  | cons en rest ih =>
    have hf := flashOne_all_no_read be hq g en.name en.fd.buf
    by_cases hn : en.need
    · by_cases hr : (flashOne be g en.name en.fd.buf).2
      · simp only [writeLoop, hn, hr, if_true, List.all_cons, Bool.and_eq_true,
          isRead, Bool.not_false]
        exact ⟨trivial, hf⟩
      · simp only [writeLoop, hn, hr, if_true, if_false, Bool.false_eq_true,
          List.all_cons, List.all_append, Bool.and_eq_true, isRead, Bool.not_false]
        exact ⟨⟨trivial, hf⟩, ih⟩
    · simp only [writeLoop, hn, Bool.false_eq_true, if_false]
      exact ih

theorem count_gpio_zero {l : List Ev} (hb : l.all benign = true) (b : Bool) :
    l.count (Ev.gpio b) = 0 := by
  rw [List.count_eq_zero]
  intro hmem
  have := List.all_eq_true.mp hb _ hmem
  simp [benign] at this

theorem count_gpio_zero_of_readOrPr {l : List Ev}
    (hb : l.all (fun e => isRead e || isPr e) = true) (b : Bool) :
    l.count (Ev.gpio b) = 0 := by
  rw [List.count_eq_zero]
  intro hmem
  have := List.all_eq_true.mp hb _ hmem
  simp [isRead, isPr] at this

theorem writeLoop_gpio_balanced (be : Backend) (hq : be.quiet) :
    ∀ l, (writeLoop be true l).1.count (Ev.gpio false) =
      (writeLoop be true l).1.count (Ev.gpio true) := by
  intro l
  induction l with
  | nil => rfl
  | cons en rest ih =>
    have hb := flashOne_body_all be hq en.name en.fd.buf
    have h0 := count_gpio_zero hb false
    have h1 := count_gpio_zero hb true
    by_cases hn : en.need
    · by_cases hr : (flashOne be true en.name en.fd.buf).2
      · simp only [writeLoop, hn, hr, if_true]
        rw [flashOne_trace_gpio]
        simp [List.count_append, List.count_cons, h0, h1]
      · simp only [writeLoop, hn, hr, if_true, if_false, Bool.false_eq_true]
        rw [flashOne_trace_gpio]
        simp [List.count_append, List.count_cons, h0, h1, ih]
    · simp only [writeLoop, hn, Bool.false_eq_true, if_false]
      exact ih

theorem getLast_concat_gpio (l : List Ev) :
    (l ++ [Ev.gpio true]).getLast? = some (Ev.gpio true) := by
  simp

theorem writeLoop_raised_last (be : Backend) :
    ∀ l, (writeLoop be true l).2 = true →
      (writeLoop be true l).1.getLast? = some (Ev.gpio true) := by
  intro l
  induction l with
  | nil => intro h; simp [writeLoop] at h
  | cons en rest ih =>
    intro h
    by_cases hn : en.need
    · by_cases hr : (flashOne be true en.name en.fd.buf).2
      · simp only [writeLoop, hn, hr, if_true]
        rw [flashOne_trace_gpio]
        rw [← List.cons_append, ← List.cons_append]
        exact getLast_concat_gpio _
      · simp only [writeLoop, hn, hr, if_true, if_false, Bool.false_eq_true] at h ⊢
        have h2 : (writeLoop be true rest).2 = true := h
        have hlast := ih h2
        rw [List.getLast?_append, hlast]
        rfl
    · simp only [writeLoop, hn, Bool.false_eq_true, if_false] at h ⊢
      exact ih h

theorem verifyLoop_fatal_outcome (md5f : List Nat → String) (be : Backend) :
    ∀ l tr out, verifyLoop md5f be l = .fatal tr out →
      out = .raised .nameError ∨ out = .exited 1 := by
  intro l
  induction l with
  | nil => intro tr out h; simp [verifyLoop] at h
  | cons p rest ih =>
    obtain ⟨s, fd⟩ := p
    intro tr out h
    rw [verifyLoop] at h
    by_cases h1 : be.hasSection s = false
    · rw [if_pos h1] at h
      injection h with _ h2
      exact Or.inl h2.symm
    · rw [if_neg h1] at h
      by_cases h2 : be.sizeOf s < fd.size
      · rw [if_pos h2] at h
        injection h with _ h3
        exact Or.inr h3.symm
      · rw [if_neg h2] at h
        cases hrec : verifyLoop md5f be rest with
        | fatal tr2 out2 =>
          rw [hrec] at h
          have h4 : VRes.fatal _ out2 = VRes.fatal tr out := h
          injection h4 with _ h5
          exact h5 ▸ ih tr2 out2 hrec
        | done tr2 es =>
          rw [hrec] at h
          exact absurd h (by simp)

theorem noReadsB_of_all {l : List Ev} (h : l.all (fun e => !(isRead e)) = true) :
    noReadsB l = true := by
  induction l with
  | nil => rfl
  | cons e r ih =>
    simp only [List.all_cons, Bool.and_eq_true] at h
    simp only [noReadsB, Bool.and_eq_true]
    exact ⟨h.1, ih h.2⟩

theorem noReadAfterWrite_of_noReads {l : List Ev} (h : noReadsB l = true) :
    noReadAfterWrite l = true := by
  induction l with
  | nil => rfl
  | cons e r ih =>
    simp only [noReadsB, Bool.and_eq_true] at h
    rw [noReadAfterWrite]
    by_cases hw : isWriteDev e = true
    · rw [if_pos hw]; exact h.2
    · rw [if_neg hw]; exact ih h.2

theorem noReadAfterWrite_append {v w : List Ev}
    (hv : v.all (fun e => !(isWriteDev e)) = true) (hw : noReadAfterWrite w = true) :
    noReadAfterWrite (v ++ w) = true := by
  induction v with
  | nil => simpa using hw
  | cons e r ih =>
    simp only [List.all_cons, Bool.and_eq_true] at hv
    rw [List.cons_append, noReadAfterWrite]
    have he : isWriteDev e = false := by simpa using hv.1
    rw [he]
    simp only [Bool.false_eq_true, if_false]
    exact ih hv.2

theorem noReadAfterWrite_of_no_writes {l : List Ev}
    (h : l.all (fun e => !(isWriteDev e)) = true) : noReadAfterWrite l = true := by
  have h2 := noReadAfterWrite_append (w := []) h rfl
  simpa using h2

theorem readOrPr_not_writeDev {l : List Ev}
    (h : l.all (fun e => isRead e || isPr e) = true) :
    l.all (fun e => !(isWriteDev e)) = true := by
  refine all_mono (fun e he => ?_) l h
  cases e <;> simp [isRead, isPr, isWriteDev] at he ⊢

/-! ## Unfolding equations for mainRun -/

theorem mainRun_eq_precheck {md5f : List Nat → String} {be : Backend} {args : Args}
    (h : args.spl = none ∧ args.uboot = none) :
    mainRun md5f be args = ([], .exited 1) := by
  rw [mainRun, if_pos h]

theorem mainRun_eq_fatal {md5f : List Nat → String} {be : Backend} {args : Args}
    {tr : List Ev} {out : Outcome} (h0 : ¬(args.spl = none ∧ args.uboot = none))
    (h : verifyLoop md5f be (inputData md5f args) = .fatal tr out) :
    mainRun md5f be args = (tr, out) := by
  simp only [mainRun, if_neg h0, h]

theorem mainRun_eq_verify {md5f : List Nat → String} {be : Backend} {args : Args}
    {tr : List Ev} {es : List SectEntry}
    (h0 : ¬(args.spl = none ∧ args.uboot = none))
    (h : verifyLoop md5f be (inputData md5f args) = .done tr es)
    (hv : args.verify = true) :
    mainRun md5f be args = (tr, .exited (if es.any (·.need) then 1 else 0)) := by
  simp only [mainRun, if_neg h0, h, hv, if_true]

theorem mainRun_eq_write {md5f : List Nat → String} {be : Backend} {args : Args}
    {tr : List Ev} {es : List SectEntry}
    (h0 : ¬(args.spl = none ∧ args.uboot = none))
    (h : verifyLoop md5f be (inputData md5f args) = .done tr es)
    (hv : args.verify = false) (hw : args.write = true) :
    mainRun md5f be args =
      (tr ++ (writeLoop be (gpioOn args) es).1,
        if (writeLoop be (gpioOn args) es).2 then .raised .mediumError else .exited 0) := by
  simp only [mainRun, if_neg h0, h, hv, hw, Bool.false_eq_true, if_false, if_true]

theorem mainRun_eq_nothing {md5f : List Nat → String} {be : Backend} {args : Args}
    {tr : List Ev} {es : List SectEntry}
    (h0 : ¬(args.spl = none ∧ args.uboot = none))
    (h : verifyLoop md5f be (inputData md5f args) = .done tr es)
    (hv : args.verify = false) (hw : args.write = false) :
    mainRun md5f be args = (tr, .exited 0) := by
  simp only [mainRun, if_neg h0, h, hv, hw, Bool.false_eq_true, if_false]

/-! ## Concrete instances used by witnesses and counterexamples -/

/-- A concrete digest function for witness runs: the printed form of the
buffer, which distinguishes all the short buffers used below. -/
def md5c : List Nat → String := fun b => toString b

/-- A concrete backend exposing all three sections, with 4 bytes of device
content per section, and erase and write that always succeed. -/
def beDemo : Backend :=
  { hasSection := fun s => s == "spl" || s == "uboot" || s == "uboot-second"
    sizeOf := fun _ => 64
    contents := fun _ => [9, 9, 9, 9]
    eraseT := fun s => ([Ev.erase s], false)
    writeT := fun s buf => ([Ev.writeDev s buf], false) }

theorem beDemo_quiet : Backend.quiet beDemo := fun _ _ => ⟨rfl, rfl⟩

/-- Write-mode arguments with only a uboot candidate and no gpio guard. -/
def argsWr : Args := ⟨true, false, none, some [1, 2], none⟩

/-- C1, counterexample: the claim requires every flashed section to be
re-read and digest-compared after the write before the run reports it
updated.  In this concrete write-mode run two sections are flashed, the
trace contains device writes but no read of a written section after its
write, and the run nevertheless exits 0. -/
theorem mainRun_reverify_cex :
    reverifiedB (mainRun md5c beDemo argsWr).1 = false ∧
      (mainRun md5c beDemo argsWr).1.any isWriteDev = true ∧
      (mainRun md5c beDemo argsWr).2 = .exited 0 := by
  decide

/-- C1, amended: the engine never re-reads flashed data: in any invocation
no flash read happens after any device write (with a backend whose erase
and write emit only mutation events, as both backends of the source do),
and a write-mode run whose erase and write calls succeed exits 0 with no
post-write digest comparison, as the counterexample run shows concretely. -/
theorem mainRun_never_reverifies :
    ∀ (md5f : List Nat → String) (be : Backend) (args : Args), Backend.quiet be →
      noReadAfterWrite (mainRun md5f be args).1 = true := by
  intro md5f be args hq
  by_cases h0 : args.spl = none ∧ args.uboot = none
  · rw [mainRun_eq_precheck h0]; rfl
  · have hv := verifyLoop_trace_readOrPr md5f be (inputData md5f args)
    cases hrec : verifyLoop md5f be (inputData md5f args) with
    | fatal tr out =>
      rw [hrec] at hv
      have hv2 : tr.all (fun e => isRead e || isPr e) = true := hv
      rw [mainRun_eq_fatal h0 hrec]
      exact noReadAfterWrite_of_no_writes (readOrPr_not_writeDev hv2)
    | done tr es =>
      rw [hrec] at hv
      have hv2 : tr.all (fun e => isRead e || isPr e) = true := hv
      by_cases hverify : args.verify = true
      · rw [mainRun_eq_verify h0 hrec hverify]
        exact noReadAfterWrite_of_no_writes (readOrPr_not_writeDev hv2)
      · by_cases hwrite : args.write = true
        · rw [mainRun_eq_write h0 hrec (by simpa using hverify) hwrite]
          refine noReadAfterWrite_append (readOrPr_not_writeDev hv2) ?_
          exact noReadAfterWrite_of_noReads
            (noReadsB_of_all (writeLoop_all_no_read be hq _ es))
        · rw [mainRun_eq_nothing h0 hrec (by simpa using hverify) (by simpa using hwrite)]
          exact noReadAfterWrite_of_no_writes (readOrPr_not_writeDev hv2)

/-- Witness for the amended C1 theorem at the counterexample run. -/
theorem mainRun_never_reverifies_witness :
    Backend.quiet beDemo ∧ noReadAfterWrite (mainRun md5c beDemo argsWr).1 = true :=
  ⟨beDemo_quiet, mainRun_never_reverifies md5c beDemo argsWr beDemo_quiet⟩

/-- C2: both write-protect guard variants release on every control-flow
exit.  When the gpio guard is active (args.gpio present and nonzero, the
truthiness test of line 272), every run balances its gpio write-enable and
write-disable events, and a run that dies on a MediumError from erase or
write still ends its trace with the gpio write-disable event, which is the
finally block of lines 278-281.  Independently, the mmc backend's write
always opens with force_ro "0" and closes with force_ro "1" whether or not
the device write raises, which is the try/finally of lines 70-78; the mmc
write takes no gpio parameter at all, so this holds for every gpio
configuration. -/
theorem guard_release_on_all_paths :
    (∀ (md5f : List Nat → String) (be : Backend) (args : Args), Backend.quiet be →
       gpioOn args = true →
       ((mainRun md5f be args).1.count (Ev.gpio false) =
         (mainRun md5f be args).1.count (Ev.gpio true)) ∧
       ((mainRun md5f be args).2 = .raised .mediumError →
         (mainRun md5f be args).1.getLast? = some (Ev.gpio true)))
    ∧ (∀ (devSize : Nat) (splOff ubootOff : Int) (cont : String → List Nat)
        (wFails : String → Bool) (s : String) (buf : List Nat),
        ((mmcBackend devSize splOff ubootOff cont wFails).writeT s buf).1.head? =
            some (Ev.forceRo "0") ∧
          ((mmcBackend devSize splOff ubootOff cont wFails).writeT s buf).1.getLast? =
            some (Ev.forceRo "1") ∧
          ((mmcBackend devSize splOff ubootOff cont wFails).writeT s buf).2 = wFails s) := by
  constructor
  · intro md5f be args hq hg
    by_cases h0 : args.spl = none ∧ args.uboot = none
    · rw [mainRun_eq_precheck h0]
      exact ⟨rfl, by intro h; exact absurd h (by simp)⟩
    · have hv := verifyLoop_trace_readOrPr md5f be (inputData md5f args)
      cases hrec : verifyLoop md5f be (inputData md5f args) with
      | fatal tr out =>
        rw [hrec] at hv
        have hv2 : tr.all (fun e => isRead e || isPr e) = true := hv
        rw [mainRun_eq_fatal h0 hrec]
        refine ⟨by rw [count_gpio_zero_of_readOrPr hv2, count_gpio_zero_of_readOrPr hv2], ?_⟩
        intro hmed
        rcases verifyLoop_fatal_outcome md5f be _ _ _ hrec with h | h <;>
          rw [h] at hmed <;> exact absurd hmed (by simp)
      | done tr es =>
        rw [hrec] at hv
        have hv2 : tr.all (fun e => isRead e || isPr e) = true := hv
        by_cases hverify : args.verify = true
        · rw [mainRun_eq_verify h0 hrec hverify]
          refine ⟨by rw [count_gpio_zero_of_readOrPr hv2, count_gpio_zero_of_readOrPr hv2], ?_⟩
          intro hmed
          exact absurd hmed (by simp)
        · by_cases hwrite : args.write = true
          · rw [mainRun_eq_write h0 hrec (by simpa using hverify) hwrite]
            rw [hg]
            constructor
            · rw [List.count_append, List.count_append,
                count_gpio_zero_of_readOrPr hv2, count_gpio_zero_of_readOrPr hv2,
                writeLoop_gpio_balanced be hq es]
            · intro hmed
              by_cases hw2 : (writeLoop be true es).2 = true
              · have hlast := writeLoop_raised_last be es hw2
                rw [List.getLast?_append, hlast]
                rfl
              · rw [if_neg hw2] at hmed
                exact absurd hmed (by simp)
          · rw [mainRun_eq_nothing h0 hrec (by simpa using hverify) (by simpa using hwrite)]
            refine ⟨by rw [count_gpio_zero_of_readOrPr hv2, count_gpio_zero_of_readOrPr hv2], ?_⟩
            intro hmed
            exact absurd hmed (by simp)
  · intro devSize splOff ubootOff cont wFails s buf
    exact ⟨rfl, rfl, rfl⟩

/-- Write-mode arguments with a gpio guard configured. -/
def argsGpio : Args := ⟨true, false, none, some [1, 2], some 5⟩

/-- Witness for C2 at a concrete gpio-guarded run. -/
theorem guard_release_witness :
    Backend.quiet beDemo ∧ gpioOn argsGpio = true ∧
      (mainRun md5c beDemo argsGpio).1.count (Ev.gpio false) =
        (mainRun md5c beDemo argsGpio).1.count (Ev.gpio true) :=
  ⟨beDemo_quiet, by decide,
   (guard_release_on_all_paths.1 md5c beDemo argsGpio beDemo_quiet (by decide)).1⟩

theorem flashOne_mentions (be : Backend) (hsc : be.scoped) (g : Bool) (s : String)
    (buf : List Nat) (s2 : String) (h : s2 ≠ s) :
    (flashOne be g s buf).1.all (fun e => !(mentionsSection s2 e)) = true := by
  rw [flashOne_trace]
  obtain ⟨he, hw⟩ := hsc s buf s2 h
  have hbody : (if (be.eraseT s).2 then (be.eraseT s).1
      else (be.eraseT s).1 ++ (be.writeT s buf).1).all
        (fun e => !(mentionsSection s2 e)) = true := by
    by_cases hr : (be.eraseT s).2 <;> simp [hr, List.all_append, he, hw]
  cases g
  · simpa [List.all_append] using hbody
  · simp only [List.all_append, Bool.and_eq_true]
    exact ⟨⟨by rfl, hbody⟩, by rfl⟩

theorem writeLoop_mentions (be : Backend) (hsc : be.scoped) (g : Bool) (s2 : String) :
    ∀ l, (∀ p ∈ l, s2 ≠ p.name) →
      (writeLoop be g l).1.all (fun e => !(mentionsSection s2 e)) = true := by
  intro l
  induction l with
  | nil => intro _; rfl
  | cons en rest ih =>
    intro hnames
    have hf := flashOne_mentions be hsc g en.name en.fd.buf s2
      (hnames en (List.mem_cons_self en rest))
    have ihr := ih (fun q hq => hnames q (List.mem_cons_of_mem en hq))
    by_cases hn : en.need
    · by_cases hr : (flashOne be g en.name en.fd.buf).2
      · simp only [writeLoop, hn, hr, if_true, List.all_cons, Bool.and_eq_true,
          mentionsSection, Bool.not_false]
        exact ⟨trivial, hf⟩
      · simp only [writeLoop, hn, hr, if_true, if_false, Bool.false_eq_true,
          List.all_cons, List.all_append, Bool.and_eq_true, mentionsSection, Bool.not_false]
        exact ⟨⟨trivial, hf⟩, ihr⟩
    · simp only [writeLoop, hn, Bool.false_eq_true, if_false]
      exact ihr

theorem writeLoop_abort (be : Backend) (g : Bool) :
    ∀ pre (en : SectEntry) post,
      (∀ p ∈ pre, p.need = true → (flashOne be g p.name p.fd.buf).2 = false) →
      en.need = true → (flashOne be g en.name en.fd.buf).2 = true →
      writeLoop be g (pre ++ en :: post) =
        ((writeLoop be g pre).1 ++
          (Ev.pr ("flash: " ++ en.name ++ ": FLASHING") ::
            (flashOne be g en.name en.fd.buf).1),
         true) := by
  intro pre
  induction pre with
  | nil =>
    intro en post hpre hneed hraise
    simp only [List.nil_append, writeLoop, hneed, hraise, if_true]
  | cons p pre2 ih =>
    intro en post hpre hneed hraise
    rw [List.cons_append]
    by_cases hn : p.need
    · have hnr := hpre p (List.mem_cons_self p pre2) hn
      simp only [writeLoop, hn, hnr, if_true, Bool.false_eq_true, if_false]
      rw [ih en post (fun q hq => hpre q (List.mem_cons_of_mem p hq)) hneed hraise]
      simp [List.append_assoc]
    · simp only [writeLoop, hn, Bool.false_eq_true, if_false]
      exact ih en post (fun q hq => hpre q (List.mem_cons_of_mem p hq)) hneed hraise

/-- C3, amended: a MediumError raised while erasing or writing one section
aborts the write loop instead of being handled per section.  First part:
when the sections before en flash cleanly and en's erase or write raises,
the whole write loop raises and its trace contains no erase and no device
write of any section name distinct from en's and from the earlier ones; in
particular the remaining requested sections are never attempted, and no
FAILED report is printed for en (the loop ends at the guard-release event).
Second part: a raised MediumError makes the invocation terminate with the
propagated exception, whose process exit status is 1. -/
theorem medium_error_aborts :
    (∀ (be : Backend) (g : Bool) (pre : List SectEntry) (en : SectEntry)
       (post : List SectEntry) (s2 : String), Backend.scoped be →
       (∀ p ∈ pre, p.need = true → (flashOne be g p.name p.fd.buf).2 = false) →
       en.need = true → (flashOne be g en.name en.fd.buf).2 = true →
       (∀ p ∈ pre, s2 ≠ p.name) → s2 ≠ en.name →
       (writeLoop be g (pre ++ en :: post)).2 = true ∧
         (writeLoop be g (pre ++ en :: post)).1.all
           (fun e => !(mentionsSection s2 e)) = true)
    ∧ (∀ (md5f : List Nat → String) (be : Backend) (args : Args) (tr : List Ev)
        (es : List SectEntry),
        args.verify = false → args.write = true →
        verifyLoop md5f be (inputData md5f args) = .done tr es →
        (writeLoop be (gpioOn args) es).2 = true →
        (mainRun md5f be args).2 = .raised .mediumError ∧
          exitStatus (mainRun md5f be args).2 = 1) := by
  constructor
  · intro be g pre en post s2 hsc hpre hneed hraise hnames hne
    rw [writeLoop_abort be g pre en post hpre hneed hraise]
    refine ⟨rfl, ?_⟩
    simp only [List.all_append, List.all_cons, Bool.and_eq_true]
    refine ⟨writeLoop_mentions be hsc g s2 pre hnames, rfl,
      flashOne_mentions be hsc g en.name en.fd.buf s2 hne⟩
  · intro md5f be args tr es hv hw hdone hraise
    have h0 : ¬(args.spl = none ∧ args.uboot = none) := by
      intro ⟨h1, h2⟩
      have hempty : inputData md5f args = [] := by
        rw [inputData, h1, h2]
        rfl
      rw [hempty] at hdone
      have : VRes.done ([] : List Ev) ([] : List SectEntry) = VRes.done tr es := hdone
      injection this with _ h3
      rw [← h3] at hraise
      simp [writeLoop] at hraise
    rw [mainRun_eq_write h0 hdone hv hw, if_pos hraise]
    exact ⟨rfl, rfl⟩

/-- A backend like beDemo whose erase of the spl section raises. -/
def beFail : Backend :=
  { hasSection := fun s => s == "spl" || s == "uboot" || s == "uboot-second"
    sizeOf := fun _ => 64
    contents := fun _ => [9, 9, 9, 9]
    eraseT := fun s => ([Ev.erase s], s == "spl")
    writeT := fun s buf => ([Ev.writeDev s buf], false) }

theorem beFail_scoped : Backend.scoped beFail := by
  intro s buf s2 h
  constructor
  · simp [beFail, mentionsSection]
    exact fun hc => h hc.symm
  · simp [beFail, mentionsSection]
    exact fun hc => h hc.symm

/-- Write-mode arguments supplying both candidates. -/
def argsTwo : Args := ⟨true, false, some [1], some [2], none⟩

/-- C3, counterexample: spl, uboot and uboot-second are all requested and
all need flashing, spl's erase raises a MediumError, and the invocation
dies with the propagated exception while the trace contains no erase and
no device write of the uboot section: the remaining requested sections are
not attempted, refuting the per-section containment the claim states. -/
theorem medium_error_cex :
    (mainRun md5c beFail argsTwo).2 = .raised .mediumError ∧
      (mainRun md5c beFail argsTwo).1.all
        (fun e => !(mentionsSection "uboot" e)) = true ∧
      (match verifyLoop md5c beFail (inputData md5c argsTwo) with
       | .done _ es => es.any (fun x => x.name == "uboot" && x.need)
       | .fatal _ _ => false) = true := by
  decide

/-- Entries used by the C3 witness. -/
def entSpl : SectEntry := ⟨"spl", ⟨1, [1], md5c [1]⟩, true⟩

def entUboot : SectEntry := ⟨"uboot", ⟨1, [2], md5c [2]⟩, true⟩

/-- Witness for the amended C3 theorem: with spl raising first, the loop
raises and never mentions the pending uboot entry. -/
theorem medium_error_aborts_witness :
    (writeLoop beFail false ([] ++ entSpl :: [entUboot])).2 = true ∧
      (writeLoop beFail false ([] ++ entSpl :: [entUboot])).1.all
        (fun e => !(mentionsSection "uboot" e)) = true :=
  medium_error_aborts.1 beFail false [] entSpl [entUboot] "uboot" beFail_scoped
    (fun p hp => absurd hp (List.not_mem_nil p)) rfl (by decide)
    (fun p hp => absurd hp (List.not_mem_nil p)) (by decide)

/-- C6: a supplied section whose candidate is larger than the backend's
reported section size makes the invocation end with process status 1, with
no read of that section's flash content anywhere in the trace (so its
content is never digested) and no erase or device write of any section: the
size check of line 247 fires inside the verify loop, before that section is
read and before the write phase can start. -/
theorem oversize_exits_before_mutation :
    ∀ (md5f : List Nat → String) (be : Backend) (args : Args) (s : String) (fd : FileData),
      (s, fd) ∈ inputData md5f args → be.sizeOf s < fd.size →
      exitStatus (mainRun md5f be args).2 = 1 ∧
        (mainRun md5f be args).1.all
          (fun e => !(isReadOf s e) && !(isErase e) && !(isWriteDev e)) = true := by
  intro md5f be args s fd hmem hover
  have h0 : ¬(args.spl = none ∧ args.uboot = none) := by
    intro ⟨h1, h2⟩
    rw [inputData, h1, h2] at hmem
    exact absurd hmem (List.not_mem_nil _)
  obtain ⟨tr, out, hfat, hst, hall⟩ := verifyLoop_oversize_fatal md5f be
    (inputData md5f args) s fd hmem (inputData_names_nodup md5f args) hover
  rw [mainRun_eq_fatal h0 hfat]
  refine ⟨hst, ?_⟩
  have hro := verifyLoop_trace_readOrPr md5f be (inputData md5f args)
  rw [hfat] at hro
  have hro2 : tr.all (fun e => isRead e || isPr e) = true := hro
  rw [List.all_eq_true] at hall hro2 ⊢
  intro e he
  have h1 := hall e he
  have h2 := hro2 e he
  cases e with
  | read s2 n =>
    simp only [isReadOf, isErase, isWriteDev] at h1 ⊢
    simp [h1]
  | pr m => rfl
  | erase s2 => simp [isRead, isPr] at h2
  | writeDev s2 b => simp [isRead, isPr] at h2
  | gpio v => simp [isRead, isPr] at h2
  | forceRo v => simp [isRead, isPr] at h2

/-- beDemo with a 1-byte section size, smaller than the 2-byte candidate. -/
def beSmall : Backend :=
  { hasSection := fun s => s == "spl" || s == "uboot" || s == "uboot-second"
    sizeOf := fun _ => 1
    contents := fun _ => [9, 9, 9, 9]
    eraseT := fun s => ([Ev.erase s], false)
    writeT := fun s buf => ([Ev.writeDev s buf], false) }

/-- Witness for C6 at a concrete oversized candidate. -/
theorem oversize_witness :
    ("uboot", create_file_data md5c [1, 2]) ∈ inputData md5c argsWr ∧
      beSmall.sizeOf "uboot" < (create_file_data md5c [1, 2]).size ∧
      exitStatus (mainRun md5c beSmall argsWr).2 = 1 :=
  ⟨by decide, by decide,
   (oversize_exits_before_mutation md5c beSmall argsWr "uboot" (create_file_data md5c [1, 2])
     (by decide) (by decide)).1⟩

theorem readOrPr_not_mutation {l : List Ev}
    (h : l.all (fun e => isRead e || isPr e) = true) :
    l.all (fun e => !(isErase e) && !(isWriteDev e)) = true := by
  refine all_mono (fun e he => ?_) l h
  cases e <;> simp [isRead, isPr, isErase, isWriteDev] at he ⊢

theorem any_not_eq_false_iff {α : Type} (p : α → Bool) (l : List α) :
    (l.any (fun x => !(p x)) = false) ↔ l.all p = true := by
  induction l with
  | nil => simp
  | cons a t ih => cases hpa : p a <;> simp [hpa, ih]

/-- C7: with the verify flag set the engine mutates nothing: the whole
trace holds no erase and no device write whatever the write flag says.  For
an invocation that supplies at least one candidate (one with none at all
exits 1 at the precondition check of lines 200-203 before the engine runs)
and whose supplied sections all exist in the backend and pass the size
check, the run exits 0 exactly when every supplied section's candidate
digest equals the digest of the flash bytes read from that section; and if
any supplied section needed flashing the run exits 1. -/
theorem verify_only_no_mutation :
    ∀ (md5f : List Nat → String) (be : Backend) (args : Args),
      args.verify = true →
      ((mainRun md5f be args).1.all (fun e => !(isErase e) && !(isWriteDev e)) = true)
      ∧ (¬(args.spl = none ∧ args.uboot = none) →
         (inputData md5f args).all
            (fun p => be.hasSection p.1 && decide (p.2.size ≤ be.sizeOf p.1)) = true →
         (((mainRun md5f be args).2 = .exited 0 ↔
            (inputData md5f args).all
              (fun p => p.2.md5 == md5f ((be.contents p.1).take p.2.size)) = true)
          ∧ ((inputData md5f args).any
              (fun p => !(p.2.md5 == md5f ((be.contents p.1).take p.2.size))) = true →
            (mainRun md5f be args).2 = .exited 1))) := by
  intro md5f be args hverify
  constructor
  · by_cases h0 : args.spl = none ∧ args.uboot = none
    · rw [mainRun_eq_precheck h0]; rfl
    · have hv := verifyLoop_trace_readOrPr md5f be (inputData md5f args)
      cases hrec : verifyLoop md5f be (inputData md5f args) with
      | fatal tr out =>
        rw [hrec] at hv
        have hv2 : tr.all (fun e => isRead e || isPr e) = true := hv
        rw [mainRun_eq_fatal h0 hrec]
        exact readOrPr_not_mutation hv2
      | done tr es =>
        rw [hrec] at hv
        have hv2 : tr.all (fun e => isRead e || isPr e) = true := hv
        rw [mainRun_eq_verify h0 hrec hverify]
        exact readOrPr_not_mutation hv2
  · intro h0 hwf
    obtain ⟨tr, hdone⟩ := verifyLoop_done_of_wf md5f be (inputData md5f args) hwf
    rw [mainRun_eq_verify h0 hdone hverify]
    have hany : ((inputData md5f args).map (fun p =>
          (⟨p.1, p.2, !(p.2.md5 == md5f ((be.contents p.1).take p.2.size))⟩ : SectEntry))).any
        (·.need) =
        (inputData md5f args).any
          (fun p => !(p.2.md5 == md5f ((be.contents p.1).take p.2.size))) := by
      generalize inputData md5f args = l
      induction l with
      | nil => rfl
      | cons a t ih => simp [List.any_cons, ih]
    constructor
    · rw [hany]
      by_cases hc : (inputData md5f args).any
          (fun p => !(p.2.md5 == md5f ((be.contents p.1).take p.2.size))) = true
      · rw [hc]
        simp only [if_true]
        constructor
        · intro h; exact absurd h (by simp)
        · intro hall
          rw [← any_not_eq_false_iff] at hall
          rw [hall] at hc
          exact absurd hc (by simp)
      · have hc2 : (inputData md5f args).any
            (fun p => !(p.2.md5 == md5f ((be.contents p.1).take p.2.size))) = false := by
          simpa using hc
        rw [hc2]
        simp only [Bool.false_eq_true, if_false]
        rw [← any_not_eq_false_iff]
        simp [hc2]
    · intro hneed
      rw [hany, hneed]
      rfl

/-- Verify-mode arguments whose uboot candidate matches the flash bytes. -/
def argsVer : Args := ⟨false, true, none, some [9, 9], none⟩

/-- Witness for C7: a matching verify-only run exits 0 and mutates
nothing. -/
theorem verify_only_witness :
    ((mainRun md5c beDemo argsVer).1.all (fun e => !(isErase e) && !(isWriteDev e)) = true)
      ∧ (mainRun md5c beDemo argsVer).2 = .exited 0 :=
  ⟨(verify_only_no_mutation md5c beDemo argsVer rfl).1,
   (((verify_only_no_mutation md5c beDemo argsVer rfl).2 (by decide) (by decide)).1).mpr
     (by decide)⟩

/-! ## MTD discovery (flash-uboot.py lines 80-111)

mtd_device.__init__ reads the partition table text, drops the header line,
and for each remaining line takes space-separated field 0 as the device id
(colons stripped), parses field 1 with int("0x" + field, 0), and takes
field 3 with double quotes stripped as the partition name.  There is no
exception handling in the loop: a line with fewer than two fields raises
IndexError from field access, a non-hexadecimal size field raises
ValueError, and fewer than four fields raises IndexError, all of which
abort construction.  Only the names u-boot, u-boot-second and spl are
mapped to sections; any other name is skipped. -/

/-- Python str.splitlines restricted to the newline character: one entry
per line, no trailing empty entry for a trailing newline. -/
def pySplitlines : List Char → List (List Char)
  | [] => []
  | c :: cs =>
    if c = '\n' then [] :: pySplitlines cs
    else
      match pySplitlines cs with
      | [] => [[c]]
      | l :: ls => (c :: l) :: ls

/-- Python str.split(" "): split at every space, keeping empty fields. -/
def pySplitSp : List Char → List (List Char)
  | [] => [[]]
  | c :: cs =>
    if c = ' ' then [] :: pySplitSp cs
    else
      match pySplitSp cs with
      | [] => [[c]]
      | l :: ls => (c :: l) :: ls

/-- Hexadecimal digit value of a character. -/
def hexDigit? (c : Char) : Option Nat :=
  if '0' ≤ c ∧ c ≤ '9' then some (c.toNat - 48)
  else if 'a' ≤ c ∧ c ≤ 'f' then some (c.toNat - 87)
  else if 'A' ≤ c ∧ c ≤ 'F' then some (c.toNat - 55)
  else none

def hexNatCore : List Char → Nat → Option Nat
  | [], acc => some acc
  | c :: r, acc =>
    match hexDigit? c with
    | none => none
    | some d => hexNatCore r (acc * 16 + d)

/-- Python int("0x" + f, 0): the value of a nonempty hexadecimal digit
string, none where Python raises ValueError (digit-group underscores are
not modelled; the partition table never contains them). -/
def hexNat? (l : List Char) : Option Nat :=
  if l = [] then none else hexNatCore l 0

/-- One discovered partition: device path, size, and the offset the
section was configured with. -/
structure MtdPart where
  dev : String
  size : Nat
  offset : Int
deriving DecidableEq

/-- Assignment into the partitions dict: replace in place or append. -/
def mtdUpsert (k : String) (v : MtdPart) : List (String × MtdPart) → List (String × MtdPart)
  | [] => [(k, v)]
  | (k2, v2) :: r => if k2 == k then (k, v) :: r else (k2, v2) :: mtdUpsert k v r

/-- One iteration of the discovery loop on one table line: error models an
uncaught IndexError or ValueError, ok none a skipped line, ok (some kv) a
discovered section. -/
def mtdLine (so uo : Int) (line : List Char) : Except Unit (Option (String × MtdPart)) :=
  let fields := pySplitSp line
  let dev := "/dev/" ++ String.mk (pyStrip ':' (fields.headD []))
  match fields.get? 1 with
  | none => .error ()
  | some f1 =>
    match hexNat? f1 with
    | none => .error ()
    | some sz =>
      match fields.get? 3 with
      | none => .error ()
      | some f3 =>
        let nm := String.mk (pyStrip '\x22' f3)
        if nm = "u-boot" then .ok (some ("uboot", ⟨dev, sz, uo⟩))
        else if nm = "u-boot-second" then .ok (some ("uboot-second", ⟨dev, sz, uo⟩))
        else if nm = "spl" then .ok (some ("spl", ⟨dev, sz, so⟩))
        else .ok none

def mtdLines (so uo : Int) : List (List Char) → List (String × MtdPart) →
    Except Unit (List (String × MtdPart))
  | [], acc => .ok acc
  | l :: ls, acc =>
    match mtdLine so uo l with
    | .error _ => .error ()
    | .ok o =>
      match o with
      | none => mtdLines so uo ls acc
      | some kv => mtdLines so uo ls (mtdUpsert kv.1 kv.2 acc)

/-- mtd_device.__init__ on the partition table text: drop the header line
(an empty table raises IndexError from slist.pop(0)) and fold the
discovery loop over the rest. -/
def mtd_init (table : String) (so uo : Int) : Except Unit (List (String × MtdPart)) :=
  match pySplitlines table.data with
  | [] => .error ()
  | _ :: rest => mtdLines so uo rest []

/-- The invariant the discovery loop preserves: only the three section
names are stored, and their offsets are the configured ones. -/
def partKeyOk (so uo : Int) (p : String × MtdPart) : Prop :=
  (p.1 = "uboot" ∧ p.2.offset = uo) ∨ (p.1 = "uboot-second" ∧ p.2.offset = uo) ∨
    (p.1 = "spl" ∧ p.2.offset = so)

theorem mtdLine_inv (so uo : Int) (line : List Char) {k : String} {v : MtdPart}
    (h : mtdLine so uo line = .ok (some (k, v))) : partKeyOk so uo (k, v) := by
  simp only [mtdLine] at h
  split at h
  · exact absurd h (by simp)
  · split at h
    · exact absurd h (by simp)
    · split at h
      · exact absurd h (by simp)
      · split at h
        · injection h with h2
          injection h2 with h3
          obtain ⟨hk, hv⟩ : k = "uboot" ∧ v = ⟨_, _, uo⟩ := by
            have := Prod.ext_iff.mp h3.symm
            exact ⟨this.1, this.2⟩
          exact Or.inl ⟨hk, by rw [hv]⟩
        · split at h
          · injection h with h2
            injection h2 with h3
            obtain ⟨hk, hv⟩ : k = "uboot-second" ∧ v = ⟨_, _, uo⟩ := by
              have := Prod.ext_iff.mp h3.symm
              exact ⟨this.1, this.2⟩
            exact Or.inr (Or.inl ⟨hk, by rw [hv]⟩)
          · split at h
            · injection h with h2
              injection h2 with h3
              obtain ⟨hk, hv⟩ : k = "spl" ∧ v = ⟨_, _, so⟩ := by
                have := Prod.ext_iff.mp h3.symm
                exact ⟨this.1, this.2⟩
              exact Or.inr (Or.inr ⟨hk, by rw [hv]⟩)
            · exact absurd h (by simp)

theorem mtdUpsert_inv {P : String × MtdPart → Prop} {k : String} {v : MtdPart} :
    ∀ acc, (∀ p ∈ acc, P p) → P (k, v) → ∀ p ∈ mtdUpsert k v acc, P p := by
  intro acc
  induction acc with
  | nil =>
    intro _ hkv p hp
    rw [mtdUpsert] at hp
    rcases List.mem_cons.mp hp with h | h
    · rw [h]; exact hkv
    · exact absurd h (List.not_mem_nil p)
  | cons a t ih =>
    intro hacc hkv p hp
    obtain ⟨k2, v2⟩ := a
    rw [mtdUpsert] at hp
    by_cases hk : (k2 == k) = true
    · rw [if_pos hk] at hp
      rcases List.mem_cons.mp hp with h | h
      · rw [h]; exact hkv
      · exact hacc _ (List.mem_cons_of_mem _ h)
    · rw [if_neg hk] at hp
      rcases List.mem_cons.mp hp with h | h
      · rw [h]; exact hacc _ (List.mem_cons_self _ _)
      · exact ih (fun q hq => hacc q (List.mem_cons_of_mem _ hq)) hkv p h

theorem mtdLines_inv (so uo : Int) :
    ∀ ls acc parts, (∀ p ∈ acc, partKeyOk so uo p) →
      mtdLines so uo ls acc = .ok parts → ∀ p ∈ parts, partKeyOk so uo p := by
  intro ls
  induction ls with
  | nil =>
    intro acc parts hacc h p hp
    rw [mtdLines] at h
    injection h with h2
    rw [← h2] at hp
    exact hacc p hp
  | cons l ls2 ih =>
    intro acc parts hacc h p hp
    rw [mtdLines] at h
    cases hline : mtdLine so uo l with
    | error e =>
      rw [hline] at h
      exact absurd h (by simp)
    | ok o =>
      rw [hline] at h
      cases o with
      | none => exact ih acc parts hacc h p hp
      | some kv =>
        obtain ⟨k, v⟩ := kv
        exact ih _ parts
          (mtdUpsert_inv acc hacc (mtdLine_inv so uo l hline)) h p hp

theorem mtd_init_inv {table : String} {so uo : Int} {parts : List (String × MtdPart)}
    (h : mtd_init table so uo = .ok parts) : ∀ p ∈ parts, partKeyOk so uo p := by
  rw [mtd_init] at h
  cases hsp : pySplitlines table.data with
  | nil => rw [hsp] at h; exact absurd h (by simp)
  | cons hd rest =>
    rw [hsp] at h
    exact mtdLines_inv so uo rest [] parts (fun p hp => absurd hp (List.not_mem_nil p)) h

theorem lookup_mem {l : List (String × MtdPart)} {k : String} {v : MtdPart} :
    l.lookup k = some v → (k, v) ∈ l := by
  induction l with
  | nil => intro h; simp [List.lookup] at h
  | cons a t ih =>
    obtain ⟨k2, v2⟩ := a
    intro h
    rw [List.lookup] at h
    cases hk : k == k2 with
    | true =>
      rw [hk] at h
      have h2 : some v2 = some v := h
      injection h2 with h3
      have hke : k = k2 := eq_of_beq hk
      rw [hke, ← h3]
      exact List.mem_cons_self _ _
    | false =>
      rw [hk] at h
      have h2 : List.lookup k t = some v := h
      exact List.mem_cons_of_mem _ (ih h2)

/-- The two-partition table of the specification scenario plus one
well-shaped partition with a name the discovery does not map. -/
def goodTable : String :=
  "dev: size erasesize name\nmtd0: 00100000 00010000 \x22spl\x22\nmtd1: 00400000 00010000 \x22u-boot\x22\nmtd2: 00040000 00010000 \x22env\x22\n"

/-- C8, counterexample: a table whose second line fails the expected shape
(a single field, so the size-field access raises IndexError) makes
construction fail instead of being skipped. -/
theorem mtd_malformed_cex :
    mtd_init "dev: size erasesize name\ngarbage" 0 0 = .error () := by rfl

/-- C8, amended: discovery does not tolerate malformed lines: a non-header
line with fewer than two space-separated fields, a non-hexadecimal size
field, or fewer than four fields raises and fails construction.  What does
hold: whenever construction succeeds, only partitions named exactly u-boot,
u-boot-second and spl are exposed, as the sections uboot, uboot-second and
spl; every other partition name is skipped, as the scenario table with its
extra env partition shows, together with the specification scenario that
spl and u-boot are discovered and uboot-second is absent. -/
theorem mtd_discovery_names :
    (∀ (table : String) (so uo : Int) (parts : List (String × MtdPart))
       (k : String) (p : MtdPart),
       mtd_init table so uo = .ok parts → (k, p) ∈ parts →
       k = "uboot" ∨ k = "uboot-second" ∨ k = "spl")
    ∧ (mtd_init goodTable 0 0).toOption.map (fun parts =>
        ((parts.lookup "spl").isSome, (parts.lookup "uboot").isSome,
         (parts.lookup "uboot-second").isSome)) = some (true, true, false) := by
  constructor
  · intro table so uo parts k p hinit hmem
    rcases mtd_init_inv hinit (k, p) hmem with ⟨h, _⟩ | ⟨h, _⟩ | ⟨h, _⟩
    · exact Or.inl h
    · exact Or.inr (Or.inl h)
    · exact Or.inr (Or.inr h)
  · decide

/-- Witness for the amended C8 theorem at the scenario table. -/
theorem mtd_discovery_names_witness :
    mtd_init goodTable 0 0 =
      .ok [("spl", ⟨"/dev/mtd0", 1048576, 0⟩), ("uboot", ⟨"/dev/mtd1", 4194304, 0⟩)] ∧
      ("spl" = "uboot" ∨ "spl" = "uboot-second" ∨ "spl" = "spl") :=
  ⟨by rfl,
   mtd_discovery_names.1 goodTable 0 0
     [("spl", ⟨"/dev/mtd0", 1048576, 0⟩), ("uboot", ⟨"/dev/mtd1", 4194304, 0⟩)]
     "spl" ⟨"/dev/mtd0", 1048576, 0⟩ (by rfl) (by decide)⟩

/-- C10: a uboot candidate always brings a uboot-second candidate read
from the same file, with identical content, size and digest, inserted by
lines 236-238 with no separate cli input; and on the mtd backend any
discovered uboot and uboot-second partitions both carry the caller's
single uboot offset, so their offsets are equal. -/
theorem uboot_second_mirror :
    (∀ (md5f : List Nat → String) (args : Args) (c : List Nat), args.uboot = some c →
       (inputData md5f args).lookup "uboot" = some (create_file_data md5f c) ∧
       (inputData md5f args).lookup "uboot-second" = some (create_file_data md5f c))
    ∧ (∀ (table : String) (so uo : Int) (parts : List (String × MtdPart))
        (pu ps : MtdPart),
        mtd_init table so uo = .ok parts →
        parts.lookup "uboot" = some pu → parts.lookup "uboot-second" = some ps →
        pu.offset = uo ∧ ps.offset = uo) := by
  constructor
  · intro md5f args c hc
    cases hs : args.spl with
    | none => simp [inputData, hs, hc, List.lookup]
    | some cs => simp [inputData, hs, hc, List.lookup]
  · intro table so uo parts pu ps hinit hu hus
    have hinv := mtd_init_inv hinit
    constructor
    · rcases hinv _ (lookup_mem hu) with ⟨_, h⟩ | ⟨h, _⟩ | ⟨h, _⟩
      · exact h
      · simp at h
      · simp at h
    · rcases hinv _ (lookup_mem hus) with ⟨h, _⟩ | ⟨_, h⟩ | ⟨h, _⟩
      · simp at h
      · exact h
      · simp at h

/-- Witness for C10 at concrete arguments and a concrete two-copy table. -/
theorem uboot_second_mirror_witness :
    (inputData md5c argsWr).lookup "uboot" = some (create_file_data md5c [1, 2]) ∧
      (inputData md5c argsWr).lookup "uboot-second" = some (create_file_data md5c [1, 2]) :=
  uboot_second_mirror.1 md5c argsWr [1, 2] rfl
